import Mathlib

/-!
# Verification of the dimensional-structure analysis engine

Shallow embedding of `dimensional_structure/results.py`
(classes `EFA_Analysis`, `HCA_Analysis`, `Results`) from the
Self_Regulation_Ontology repository.

External collaborators (the R `psych` routines, `scipy.stats.entropy`,
the factor-extraction solver behind `create_factor_tree`, the regression
behind `quantify_lower_nesting`, the clustering engine behind
`hierarchical_cluster`, and the random-number generators) are modelled as
components of an explicit environment `Env`; the control flow, caching
conditions, state mutation and error behaviour of the repository's own
code are transcribed line by line.  Machine randomness is modelled as
explicit streams indexed by a threaded draw counter.
-/

namespace SRO

/-- A factor-loading matrix (`variables × factors`), as produced by the
external extraction routine for one factor count.  Entries are accessed
positionally, mirroring the pandas `DataFrame` of loadings. -/
structure LoadMatrix where
  nvars : Nat
  nfacs : Nat
  entry : Nat → Nat → ℚ

/-- One externally observable computation step performed by the analysis
code.  `run`/`cluster` return the list of steps they invoked, which lets
theorems speak about what is and is not recomputed. -/
inductive Step where
  | adequacy : Step
  | dimensionality : Step
  | fitFactor (c : Nat) : Step
  | nesting : Step
  | entropyCalc (c : Nat) : Step
  | nullEntropyCalc (c : Nat) : Step
  | reportCVFailure : Step
  | clusterData : Step
  | clusterEFA (c : Nat) : Step
deriving DecidableEq, Repr

/-- The external environment of one dataset: every quantity the code
obtains from outside its own logic (R `psych` statistics, the per-count
extraction solver, the nesting regression scores, `scipy` entropy, and
the random streams).  All of these are deterministic functions here;
randomness enters only through the draw-counter-indexed streams. -/
structure Env where
  /-- `psych.KMO(data.corr())[0][0]` -/
  KMO : ℚ
  /-- `psych.cortest_bartlett(...)[1][0]` -/
  Barlett_p : ℚ
  /-- count chosen by `find_optimal_components(data, metric='BIC')` -/
  BIC_c : Nat
  /-- full BIC score curve -/
  BICs : List ℚ
  /-- count suggested by `psych.fa_parallel` -/
  parallel_c : Nat
  /-- count chosen by `find_optimal_components(data, metric='SABIC')` -/
  SABIC_c : Nat
  SABICs : List ℚ
  /-- count chosen by `find_optimal_components(data_no_impute, metric='CV')` -/
  CV_c : Nat
  CVs : List ℚ
  /-- external per-count factor extraction: loading matrix for count `c`
  (deterministic given the dataset, per spec §6) -/
  fit : Nat → LoadMatrix
  /-- opaque raw engine output handle for count `c` -/
  fitRout : Nat → Nat
  /-- per-pair `(low, high)` reconstruction score vector (one score per
  low factor), produced by the external regression inside
  `quantify_lower_nesting` -/
  nestScores : Nat → Nat → List ℚ
  /-- `scipy.stats.entropy` applied to one vector -/
  entropyFn : List ℚ → ℚ
  /-- `np.random.permutation`: the `k`-th draw, as a re-indexing of row
  positions -/
  permAt : Nat → Nat → Nat
  /-- `random.getrandbits(16)`: the `k`-th identifier draw -/
  idBits : Nat → Nat
  /-- row index chosen by the `k`-th draw of `data.sample(..., replace=True)` -/
  rowDraw : Nat → Nat
  /-- opaque output of `hierarchical_cluster(data.T, ...)` on the raw dataset -/
  hcData : Nat
  /-- opaque output of `hierarchical_cluster(loadings, ...)` on a loading matrix -/
  hierCluster : LoadMatrix → Nat

/-- The `self.results` dictionary of `EFA_Analysis`.  Each Python key is
one field; `none` means the key is absent from the dict. -/
structure EFAResults where
  EFA_adequacy : Option (Bool × ℚ × ℚ)
  /-- the `c_metric-<name>` entries (metric name → chosen count) -/
  c_metric : List (String × Nat)
  /-- the `cscores_metric-<name>` entries -/
  cscores : List (String × List ℚ)
  factor_tree : Option (List (Nat × LoadMatrix))
  factor_tree_Rout : Option (List (Nat × Nat))
  lower_nesting : Option (List ((Nat × Nat) × List ℚ))
  entropies : Option (List (Nat × List ℚ))
  null_entropies : Option (List (Nat × List ℚ))

/-- Instance state of `EFA_Analysis`: its results dict, the
`max_factors` attribute, and whether the optional `data_no_impute`
attribute was set in `__init__`. -/
structure EFAState where
  results : EFAResults
  max_factors : Nat
  hasNoImpute : Bool

/-- `EFA_Analysis.__init__`: empty results, `max_factors = 0`. -/
def EFAState.init (hasNoImpute : Bool) : EFAState :=
  { results :=
      { EFA_adequacy := none, c_metric := [], cscores := []
        factor_tree := none, factor_tree_Rout := none
        lower_nesting := none, entropies := none, null_entropies := none }
    max_factors := 0
    hasNoImpute := hasNoImpute }

/-- Dictionary assignment `d[k] = v` on an association list: overwrite
the existing binding for `k` or append a new one. -/
def setAssoc {α β : Type} [DecidableEq α] (l : List (α × β)) (k : α) (v : β) :
    List (α × β) :=
  if (l.map Prod.fst).contains k then
    l.map (fun p => if p.1 = k then (k, v) else p)
  else l ++ [(k, v)]

/-- Dictionary lookup `d[k]` on an association list. -/
def getAssoc {α β : Type} [DecidableEq α] (l : List (α × β)) (k : α) : Option β :=
  (l.find? (fun p => p.1 = k)).map Prod.snd

/-- `EFA_Analysis.adequacy_test`: the KMO statistic must exceed 0.6 and
the Bartlett p-value must be below 0.05; returns the verdict and the
statistics. -/
def adequacy_test (env : Env) : Bool × ℚ × ℚ :=
  (decide (env.KMO > 6/10) && decide (env.Barlett_p < 1/20),
   env.Barlett_p, env.KMO)

/-- Output of `get_dimensionality`: updated state, the steps taken, and
the error raised, if any (Python's `max` of an empty sequence). -/
structure DimOut where
  st : EFAState
  trace : List Step
  err : Option String

/-- `EFA_Analysis.get_dimensionality`: record the chosen count (and
score curve where produced) for each requested metric; the `CV` metric
needs `data_no_impute` and its absence is caught (`AttributeError`) and
reported rather than raised; finally set
`max_factors = max(recorded counts) + 5`. -/
def get_dimensionality (env : Env) (metrics : List String) (st : EFAState) : DimOut :=
  let r0 := st.results
  let r1 := if metrics.contains "BIC" then
      { r0 with c_metric := setAssoc r0.c_metric "BIC" env.BIC_c
                cscores := setAssoc r0.cscores "BIC" env.BICs }
    else r0
  let r2 := if metrics.contains "parallel" then
      { r1 with c_metric := setAssoc r1.c_metric "parallel" env.parallel_c }
    else r1
  let r3 := if metrics.contains "SABIC" then
      { r2 with c_metric := setAssoc r2.c_metric "SABIC" env.SABIC_c
                cscores := setAssoc r2.cscores "SABIC" env.SABICs }
    else r2
  let cvTried := metrics.contains "CV"
  let cvOk := cvTried && st.hasNoImpute
  let r4 := if cvOk then
      { r3 with c_metric := setAssoc r3.c_metric "CV" env.CV_c
                cscores := setAssoc r3.cscores "CV" env.CVs }
    else r3
  let trace := (if cvTried && !st.hasNoImpute then [Step.reportCVFailure] else [])
  let cs := r4.c_metric.map Prod.snd
  match cs.max? with
  | none => { st := { st with results := r4 }, trace := trace ++ [Step.dimensionality],
              err := some "ValueError: max() arg is an empty sequence" }
  | some m => { st := { st with results := r4, max_factors := m + 5 },
                trace := trace ++ [Step.dimensionality], err := none }

/-- `EFA_Analysis.get_metric_cs`: the recorded `c_metric-*` values. -/
def get_metric_cs (st : EFAState) : List (String × Nat) :=
  st.results.c_metric

/-- Modelled from the spec: `create_factor_tree` lives in
`dimensional_structure/utils.py`, which is not part of the provided
sources.  Per spec §4.2 it invokes the external per-count extraction
routine once for every count in the requested range `(1, maxC)` and
returns the mapping count → loading matrix together with the raw engine
outputs; it receives no previously built tree, so every count of the
range is extracted. -/
def create_factor_tree (env : Env) (maxC : Nat) :
    List (Nat × LoadMatrix) × List (Nat × Nat) × List Step :=
  ((List.range' 1 maxC).map (fun c => (c, env.fit c)),
   (List.range' 1 maxC).map (fun c => (c, env.fitRout c)),
   (List.range' 1 maxC).map (fun c => Step.fitFactor c))

/-- Modelled from the spec: `quantify_lower_nesting` lives in
`dimensional_structure/utils.py`, which is not part of the provided
sources.  Per spec §4.3 it maps every pair `(low, high)` of counts
present in the tree with `low < high` to the per-low-factor
reconstruction score vector computed by the external regression. -/
def quantify_lower_nesting (env : Env) (tree : List (Nat × LoadMatrix)) :
    List ((Nat × Nat) × List ℚ) :=
  (tree.map Prod.fst).flatMap (fun low =>
    (tree.map Prod.fst).filterMap (fun high =>
      if low < high then some ((low, high), env.nestScores low high) else none))

/-- Row `v` of the absolute values of a loading matrix
(`abs(loadings)` then one row, as fed to `entropy`). -/
def absRow (M : LoadMatrix) (v : Nat) : List ℚ :=
  (List.range M.nfacs).map (fun i => |M.entry v i|)

/-- `entropy([1/c]*c)`: the maximum-entropy normalizer for `c`
factors. -/
def maxEntropy (env : Env) (c : Nat) : ℚ :=
  env.entropyFn (List.replicate c ((1 : ℚ)/c))

/-- `EFA_Analysis.get_loading_entropy` (asserts `c > 1`): per-variable
entropy of the absolute loadings at count `c`, normalized by the maximum
entropy; `none` on the failed assertion or a missing tree level. -/
def get_loading_entropy (env : Env) (st : EFAState) (c : Nat) : Option (List ℚ) :=
  if c > 1 then
    match st.results.factor_tree with
    | none => none
    | some tree =>
      match getAssoc tree c with
      | none => none
      | some M =>
        some ((List.range M.nvars).map
          (fun v => env.entropyFn (absRow M v) / maxEntropy env M.nfacs))
  else none

/-- One pass of the shuffle inside `get_null_loading_entropy`: every
column `i` of the current (absolute) loading matrix is independently
replaced by a random permutation of itself; draw `k0 + i` of the
permutation stream re-indexes the rows of column `i`.  Returns the
shuffled matrix and the advanced draw counter. -/
def shuffleCols (env : Env) (M : LoadMatrix) (k0 : Nat) : LoadMatrix × Nat :=
  ({ M with entry := fun v i => M.entry (env.permAt (k0 + i) v) i }, k0 + M.nfacs)

/-- The repetition loop of `get_null_loading_entropy`: shuffle the
matrix in place, append the per-variable normalized entropies of the
shuffled matrix, and recurse; the matrix mutation is cumulative across
repetitions, as in the source. -/
def nullEntLoop (env : Env) (maxE : ℚ) : Nat → LoadMatrix → Nat → List ℚ × Nat
  | 0, _, k => ([], k)
  | reps + 1, M, k =>
    let Mk := shuffleCols env M k
    let rowE := (List.range Mk.1.nvars).map
      (fun v => env.entropyFn ((List.range Mk.1.nfacs).map (Mk.1.entry v)) / maxE)
    let rest := nullEntLoop env maxE reps Mk.1 Mk.2
    (rowE ++ rest.1, rest.2)

/-- `EFA_Analysis.get_null_loading_entropy` (asserts `c > 1`): take the
absolute loading matrix at count `c`, and for `reps` repetitions shuffle
each column and concatenate the per-variable normalized entropies of the
shuffled matrix into one flat sample; `none` on the failed assertion or
a missing tree level.  Returns the sample and the advanced draw
counter. -/
def get_null_loading_entropy (env : Env) (st : EFAState) (c reps k : Nat) :
    Option (List ℚ × Nat) :=
  if c > 1 then
    match st.results.factor_tree with
    | none => none
    | some tree =>
      match getAssoc tree c with
      | none => none
      | some M =>
        let A : LoadMatrix := { M with entry := fun v i => |M.entry v i| }
        some (nullEntLoop env (maxEntropy env M.nfacs) reps A k)
  else none

/-- The entropy loop of `EFA_Analysis.run`
(`for c in range(self.max_factors): if c > 1: ...`): collect observed
and null entropy profiles for each such `c`; `none` if any tree lookup
fails (Python `KeyError`).  Threads the permutation draw counter. -/
def entropyLoop (env : Env) (st : EFAState) :
    Nat → Nat → Option (List (Nat × List ℚ) × List (Nat × List ℚ) × Nat × List Step)
  | 0, k => some ([], [], k, [])
  | n + 1, k =>
    match entropyLoop env st n k with
    | none => none
    | some (es, nes, k1, tr) =>
      if n > 1 then
        match get_loading_entropy env st n, get_null_loading_entropy env st n 50 k1 with
        | some e, some (ne, k2) =>
          some (es ++ [(n, e)], nes ++ [(n, ne)], k2,
                tr ++ [Step.entropyCalc n, Step.nullEntropyCalc n])
        | _, _ => none
      else some (es, nes, k1, tr)

/-- The factor-tree step of `EFA_Analysis.run` (lines 124–130 of the
source), with `max_factors` as it stands at that point: when the cached
tree is shorter than `max_factors`, or `rerun` is set, the **entire**
tree over `(1, max_factors)` is rebuilt by `create_factor_tree`;
otherwise the cached tree is kept untouched. -/
def treeBuildStep (env : Env) (st : EFAState) (rerun : Bool) : EFAState × List Step :=
  let run_FA := st.results.factor_tree.getD []
  if run_FA.length < st.max_factors || rerun then
    let t := create_factor_tree env st.max_factors
    let r := { st.results with factor_tree := some t.1, factor_tree_Rout := some t.2.1 }
    ({ st with results := r }, t.2.2)
  else (st, [])

/-- Output of `EFA_Analysis.run`: the state as left by the call (Python
mutates `self` up to the point of a raise), the steps invoked, the
advanced permutation draw counter, and the raised error, if any. -/
structure RunOut where
  st : EFAState
  trace : List Step
  rng : Nat
  err : Option String

/-- The body of `EFA_Analysis.run` after the adequacy assertion has
passed: record adequacy, determine dimensionality unless
`c_metric-parallel` is cached and `rerun` is false, rebuild the factor
tree from scratch over `(1, max_factors)` when the cached tree is
shorter than `max_factors` or `rerun` is set, then unconditionally
recompute `lower_nesting` and the observed and null entropy profiles for
`c in range(max_factors)` with `c > 1`. -/
def EFA_run_post (env : Env) (st : EFAState) (rerun : Bool) (k : Nat) : RunOut :=
    let ad := adequacy_test env
    let st1 : EFAState :=
      { st with results := { st.results with EFA_adequacy := some ad } }
    let dimNeeded := (getAssoc st1.results.c_metric "parallel").isNone || rerun
    let dim :=
      if dimNeeded then get_dimensionality env ["BIC", "parallel"] st1
      else { st := st1, trace := [], err := none }
    match dim.err with
    | some e => { st := dim.st, trace := Step.adequacy :: dim.trace, rng := k,
                  err := some e }
    | none =>
      let st2 := dim.st
      let tb := treeBuildStep env st2 rerun
      let st3 := tb.1
      let fitTrace := tb.2
      let tree := st3.results.factor_tree.getD []
      let st4 : EFAState :=
        { st3 with results :=
            { st3.results with lower_nesting := some (quantify_lower_nesting env tree) } }
      match entropyLoop env st4 st4.max_factors k with
      | none =>
        { st := st4, trace := Step.adequacy :: dim.trace ++ fitTrace ++ [Step.nesting],
          rng := k, err := some "KeyError" }
      | some (es, nes, k2, entTrace) =>
        { st := { st4 with results :=
                    { st4.results with entropies := some es, null_entropies := some nes } }
          trace := Step.adequacy :: dim.trace ++ fitTrace ++ [Step.nesting] ++ entTrace
          rng := k2
          err := none }

/-- `EFA_Analysis.run(rerun, verbose)`: the adequacy assertion (fatal,
leaving the results untouched when it fires), followed by the cached
pipeline `EFA_run_post`. -/
def EFA_run (env : Env) (st : EFAState) (rerun : Bool) (k : Nat) : RunOut :=
  let ad := adequacy_test env
  if ¬ ad.1 then
    { st := st, trace := [Step.adequacy], rng := k,
      err := some "AssertionError: Data is not adequate for EFA!" }
  else EFA_run_post env st rerun k

/-- When the adequacy test passes, `run` is its post-assertion body. -/
theorem EFA_run_eq_post (env : Env) (st : EFAState) (rerun : Bool) (k : Nat)
    (had : (adequacy_test env).1 = true) :
    EFA_run env st rerun k = EFA_run_post env st rerun k := by
  simp [EFA_run, had]

/-! ## `EFA_Analysis.get_nesting_matrix` -/

/-- The per-pair `explained_score` computed inside `get_nesting_matrix`:
`np.mean` of the scores strictly above the threshold, with the `NaN` of
an empty selection converted to `0`. -/
def explainedScoreOf (thr : ℚ) (scores : List ℚ) : ℚ :=
  let adequately := scores.filter (fun s => thr < s)
  if adequately.length = 0 then 0 else adequately.sum / adequately.length

/-- The per-pair `sum_explained` computed inside `get_nesting_matrix`:
`np.sum(adequately_explained / low)`, i.e. the number of scores above
the threshold divided by the low factor count. -/
def sumExplainedOf (thr : ℚ) (low : Nat) (scores : List ℚ) : ℚ :=
  ((scores.filter (fun s => thr < s)).length : ℚ) / (low : ℚ)

/-- Write `v` at position `(i, j)` of a matrix represented as an index
function. -/
def matUpdate (m : Nat → Nat → ℚ) (i j : Nat) (v : ℚ) : Nat → Nat → ℚ :=
  fun a b => if a = i ∧ b = j then v else m a b

/-- One iteration of the `for key in lower_nesting` loop of
`get_nesting_matrix`: write the two aggregates of entry `kv` at row
`high - 1`, column `low - 1` of the two matrices. -/
def nestingStep (thr : ℚ) (ms : (Nat → Nat → ℚ) × (Nat → Nat → ℚ))
    (kv : (Nat × Nat) × List ℚ) : (Nat → Nat → ℚ) × (Nat → Nat → ℚ) :=
  (matUpdate ms.1 (kv.1.2 - 1) (kv.1.1 - 1) (explainedScoreOf thr kv.2),
   matUpdate ms.2 (kv.1.2 - 1) (kv.1.1 - 1) (sumExplainedOf thr kv.1.1 kv.2))

/-- `EFA_Analysis.get_nesting_matrix(explained_threshold=.5)`: starting
from an `explained_scores` matrix of `-1`s and a `sum_explained` matrix
of `0`s, write, for every key `(low, high)` of `lower_nesting`, the two
aggregates at row `high - 1`, column `low - 1`. -/
def get_nesting_matrix (nesting : List ((Nat × Nat) × List ℚ)) (thr : ℚ) :
    (Nat → Nat → ℚ) × (Nat → Nat → ℚ) :=
  nesting.foldl (nestingStep thr) (fun _ _ => -1, fun _ _ => 0)

/-! ## `HCA_Analysis` -/

/-- Instance state of `HCA_Analysis`: its keyed results dict (key →
opaque clustering output) and the metric name. -/
structure HCAState where
  results : List (String × Nat)
  metric_name : String

/-- `HCA_Analysis.__init__(dist_metric)`: empty results; the metric name
is `'distcorr'` for the distance-correlation function, otherwise the
metric itself. -/
def HCAState.init (metric_name : String) : HCAState :=
  { results := [], metric_name := metric_name }

/-- The cache key `'clustering_metric-<name>_input-data'`. -/
def dataKey (h : HCAState) : String :=
  "clustering_metric-" ++ h.metric_name ++ "_input-data"

/-- The cache key `'clustering_metric-<name>_input-EFA<c>'`. -/
def efaKey (h : HCAState) (c : Nat) : String :=
  "clustering_metric-" ++ h.metric_name ++ "_input-EFA" ++ toString c

/-- `HCA_Analysis.cluster_data`: run the external clustering engine on
the raw data and store the output under the data key. -/
def cluster_data (env : Env) (h : HCAState) : HCAState × List Step :=
  ({ h with results := setAssoc h.results (dataKey h) env.hcData },
   [Step.clusterData])

/-- `HCA_Analysis.cluster_EFA`: look up the loading matrix at count `c`
in the EFA's factor tree (`KeyError` if absent), run the external
clustering engine on it, and store the output under the EFA key. -/
def cluster_EFA (env : Env) (efa : EFAState) (h : HCAState) (c : Nat) :
    Except String (HCAState × List Step) :=
  match efa.results.factor_tree with
  | none => .error "KeyError: factor_tree"
  | some tree =>
    match getAssoc tree c with
    | none => .error "KeyError"
    | some M =>
      .ok ({ h with results := setAssoc h.results (efaKey h c) (env.hierCluster M) },
           [Step.clusterEFA c])

/-- The EFA-clustering loop of `HCA_Analysis.run`
(`for c in EFA.get_metric_cs().values(): self.cluster_EFA(EFA, c)`). -/
def clusterEFALoop (env : Env) (efa : EFAState) :
    HCAState → List Step → List Nat → Except String (HCAState × List Step)
  | h, tr, [] => .ok (h, tr)
  | h, tr, c :: cs =>
    match cluster_EFA env efa h c with
    | .error e => .error e
    | .ok (h1, t1) => clusterEFALoop env efa h1 (tr ++ t1) cs

/-- `HCA_Analysis.run(data, EFA, rerun=True)`: cluster the raw data when
the data key is already present in the results **or** `rerun` is true
(this is the condition exactly as written in the source), then cluster
the loading matrix of every factor count recommended by a selection
metric. -/
def HCA_run (env : Env) (efa : EFAState) (h : HCAState) (rerun : Bool) :
    Except String (HCAState × List Step) :=
  let hd :=
    if (h.results.map Prod.fst).contains (dataKey h) || rerun then
      cluster_data env h
    else (h, [])
  clusterEFALoop env efa hd.1 hd.2 ((get_metric_cs efa).map Prod.snd)

/-! ## `Results`: bootstrap -/

/-- The three independent random streams used by a session: the
`np.random` permutation counter, the `random.getrandbits` counter, and
the row-sampling counter of `DataFrame.sample`. -/
structure RNG where
  perm : Nat
  id : Nat
  row : Nat
deriving DecidableEq, Repr

/-- The `boot_run` dictionary assembled by `Results.run_bootstrap`: the
resampled data, the fresh EFA analysis, and — only when `run_HCA` was
set — the fresh HCA analysis. -/
structure BootBundle where
  data : List (List ℚ)
  EFA : EFAState
  HCA : Option HCAState

/-- Outcome of one bootstrap repetition: either a record persisted under
a filename derived from the drawn identifier (with the saved payload),
or the bundle returned directly when no save directory was given. -/
inductive BootOutcome where
  | saved (filename : String) (payload : BootBundle) : BootOutcome
  | bundle (b : BootBundle) : BootOutcome

/-- `Results.gen_resample_data`: sample `data.shape[0]` rows of the
dataset with replacement, one row-stream draw per sampled row. -/
def gen_resample_data (env : Env) (data : List (List ℚ)) (r : RNG) :
    List (List ℚ) × RNG :=
  ((List.range data.length).map (fun j => data.getD (env.rowDraw (r.row + j)) []),
   { r with row := r.row + data.length })

/-- `Results.run_bootstrap(run_HCA, save_dir)`: resample the dataset,
run a fresh `EFA_Analysis` on the resample (its construction passes no
`data_no_impute`), optionally run a fresh `HCA_Analysis` on it, and
either return the bundle or persist it under
`'bootstrap_ID-<getrandbits(16)>.pkl'`.  `env` supplies the external
routines' outputs on the resampled dataset; any error raised by the
sub-analyses propagates. -/
def run_bootstrap (env : Env) (data : List (List ℚ)) (metricName : String)
    (run_HCA save : Bool) (r : RNG) : Except String (BootOutcome × RNG) :=
  let bd := gen_resample_data env data r
  let out := EFA_run env (EFAState.init false) false bd.2.perm
  match out.err with
  | some e => .error e
  | none =>
    let r2 : RNG := { bd.2 with perm := out.rng }
    let hcaPart : Except String (Option HCAState) :=
      if run_HCA then
        match HCA_run env out.st (HCAState.init metricName) true with
        | .error e => .error e
        | .ok (hca, _) => .ok (some hca)
      else .ok none
    match hcaPart with
    | .error e => .error e
    | .ok hca =>
      let b : BootBundle := { data := bd.1, EFA := out.st, HCA := hca }
      if save then
        let ID := env.idBits r2.id
        .ok (.saved ("bootstrap_ID-" ++ toString ID ++ ".pkl") b,
             { r2 with id := r2.id + 1 })
      else .ok (.bundle b, r2)

/-- The compact summary extracted by `Results.reduce_boot`. -/
structure ReducedBoot where
  metric_cs : List (String × Nat)
  factor_solutions : List (Nat × LoadMatrix)
  HCA_solutions : List (String × Nat)

/-- `Results.reduce_boot(boot_run)`: read `boot_run['EFA']` and
`boot_run['HCA']` (a `KeyError` if the bundle has no `'HCA'` entry),
then keep only the chosen counts, the loading matrices at those counts
and the clustering results. -/
def reduce_boot (b : BootBundle) : Except String ReducedBoot :=
  match b.HCA with
  | none => .error "KeyError: HCA"
  | some hca =>
    let cs := get_metric_cs b.EFA
    match b.EFA.results.factor_tree with
    | none => .error "KeyError: factor_tree"
    | some tree =>
      match (cs.map Prod.snd).mapM
          (fun i => (getAssoc tree i).map (fun M => (i, M))) with
      | none => .error "KeyError"
      | some factors =>
        .ok { metric_cs := cs, factor_solutions := factors,
              HCA_solutions := hca.results }

/-! ## Concrete environments and projections used for evaluation -/

/-- A small concrete environment: adequate data, both selection metrics
choosing one factor (so `max_factors = 6`), a two-variable loading
matrix per count, identity permutation draws and a constant identifier
stream. -/
def testEnv : Env where
  KMO := 7/10
  Barlett_p := 1/100
  BIC_c := 1
  BICs := []
  parallel_c := 1
  SABIC_c := 1
  SABICs := []
  CV_c := 2
  CVs := []
  fit := fun c => { nvars := 2, nfacs := c, entry := fun v i => (v * 10 + i : ℚ) }
  fitRout := fun c => c
  nestScores := fun low _ => List.replicate low (3/4)
  entropyFn := fun l => l.sum
  permAt := fun _ v => v
  idBits := fun _ => 5
  rowDraw := fun _ => 0
  hcData := 0
  hierCluster := fun M => M.nfacs

/-- `testEnv`, except that the permutation stream turns from the
identity into a swap of the first two rows after draw 699 — i.e. after
exactly the number of draws one full `run` consumes there — so a second
`run` sees different permutations than the first. -/
def cexEnv : Env :=
  { testEnv with
    permAt := fun k v =>
      if k < 700 then v else if v = 0 then 1 else if v = 1 then 0 else v }

/-- An inadequate environment: the KMO statistic is 0.5, below the 0.6
gate. -/
def badEnv : Env := { testEnv with KMO := 1/2 }

/-- An empty bundle, used as the fallback of `getBundle`. -/
def emptyBundle : BootBundle :=
  { data := [], EFA := EFAState.init false, HCA := none }

/-- Project the bundle out of a non-persisted bootstrap outcome. -/
def getBundle (e : Except String (BootOutcome × RNG)) : BootBundle :=
  match e with
  | .ok (.bundle b, _) => b
  | _ => emptyBundle

/-- Project the final random state out of a bootstrap outcome. -/
def getOutRNG (e : Except String (BootOutcome × RNG)) : RNG :=
  match e with
  | .ok (_, r) => r
  | _ => ⟨0, 0, 0⟩

/-- Project the filename of a persisted bootstrap outcome. -/
def outcomeFilename (e : Except String (BootOutcome × RNG)) : Option String :=
  match e with
  | .ok (.saved f _, _) => some f
  | _ => none

/-- The state a fresh session reaches inside `run` once dimensionality,
tree build and nesting quantification have completed, just before the
entropy loop: both default metrics recorded, `max_factors` set to the
larger recommendation plus 5, the tree built over the whole range, and
the nesting results computed from it. -/
def initMid (env : Env) (hni : Bool) : EFAState :=
  { results :=
      { EFA_adequacy := some (adequacy_test env)
        c_metric := [("BIC", env.BIC_c), ("parallel", env.parallel_c)]
        cscores := [("BIC", env.BICs)]
        factor_tree := some ((List.range' 1 (max env.BIC_c env.parallel_c + 5)).map
          (fun c => (c, env.fit c)))
        factor_tree_Rout := some ((List.range' 1 (max env.BIC_c env.parallel_c + 5)).map
          (fun c => (c, env.fitRout c)))
        lower_nesting := some (quantify_lower_nesting env
          ((List.range' 1 (max env.BIC_c env.parallel_c + 5)).map (fun c => (c, env.fit c))))
        entropies := none
        null_entropies := none }
    max_factors := max env.BIC_c env.parallel_c + 5
    hasNoImpute := hni }

/-- The state a session with cached dimensionality and a full-size tree
reaches inside `run` just before the entropy loop: only the adequacy
record and the (recomputed) nesting results change. -/
def cachedMid (env : Env) (s : EFAState) : EFAState :=
  { s with results :=
      { s.results with
        EFA_adequacy := some (adequacy_test env)
        lower_nesting := some (quantify_lower_nesting env
          (s.results.factor_tree.getD [])) } }

/-! # Theorems -/

/-- The adequacy statistics of `testEnv` pass the gate. -/
theorem testEnv_adequate : (adequacy_test testEnv).1 = true := by
  norm_num [adequacy_test, testEnv]

/-- On `testEnv`, `run` always proceeds past the assertion. -/
theorem EFA_run_testEnv (st : EFAState) (rerun : Bool) (k : Nat) :
    EFA_run testEnv st rerun k = EFA_run_post testEnv st rerun k :=
  EFA_run_eq_post _ _ _ _ testEnv_adequate

/-- The observed- and null-entropy collections produced by the entropy
loop are indexed by exactly the counts `c` with `1 < c < n`. -/
theorem entropyLoop_keys (env : Env) (st : EFAState) :
    ∀ (n k : Nat) (out : List (Nat × List ℚ) × List (Nat × List ℚ) × Nat × List Step),
      entropyLoop env st n k = some out →
      out.1.map Prod.fst = (List.range n).filter (fun c => 1 < c) ∧
      out.2.1.map Prod.fst = (List.range n).filter (fun c => 1 < c) := by
  intro n
  induction n with
  | zero =>
    intro k out h
    simp only [entropyLoop, Option.some.injEq] at h
    rw [← h]
    simp
  | succ m ih =>
    intro k out h
    rw [entropyLoop] at h
    cases hrec : entropyLoop env st m k with
    | none => rw [hrec] at h; exact absurd h (by simp)
    | some prev =>
      rw [hrec] at h
      obtain ⟨es, nes, k1, tr⟩ := prev
      simp only [] at h
      obtain ⟨hk1, hk2⟩ := ih k (es, nes, k1, tr) hrec
      simp only [] at hk1 hk2
      by_cases hm : m > 1
      · rw [if_pos hm] at h
        cases hge : get_loading_entropy env st m with
        | none => rw [hge] at h; exact absurd h (by simp)
        | some e =>
          cases hgn : get_null_loading_entropy env st m 50 k1 with
          | none => rw [hge, hgn] at h; exact absurd h (by simp)
          | some p =>
            rw [hge, hgn] at h
            obtain ⟨ne, k2⟩ := p
            simp only [Option.some.injEq] at h
            rw [← h]
            constructor <;>
              simp [List.range_succ, List.filter_append, hk1, hk2, hm]
      · rw [if_neg hm] at h
        simp only [Option.some.injEq] at h
        rw [← h]
        constructor <;>
          simp [List.range_succ, List.filter_append, hk1, hk2, hm]

/-- Every step recorded by the entropy loop is an entropy computation:
the loop re-invokes no extraction, selection or nesting step. -/
theorem entropyLoop_trace_shape (env : Env) (st : EFAState) :
    ∀ (n k : Nat) (out : List (Nat × List ℚ) × List (Nat × List ℚ) × Nat × List Step),
      entropyLoop env st n k = some out →
      ∀ s ∈ out.2.2.2,
        (∃ c, s = Step.entropyCalc c) ∨ (∃ c, s = Step.nullEntropyCalc c) := by
  intro n
  induction n with
  | zero =>
    intro k out h
    simp only [entropyLoop, Option.some.injEq] at h
    rw [← h]
    simp
  | succ m ih =>
    intro k out h
    rw [entropyLoop] at h
    cases hrec : entropyLoop env st m k with
    | none => rw [hrec] at h; exact absurd h (by simp)
    | some prev =>
      rw [hrec] at h
      obtain ⟨es, nes, k1, tr⟩ := prev
      simp only [] at h
      have htr := ih k (es, nes, k1, tr) hrec
      by_cases hm : m > 1
      · rw [if_pos hm] at h
        cases hge : get_loading_entropy env st m with
        | none => rw [hge] at h; exact absurd h (by simp)
        | some e =>
          cases hgn : get_null_loading_entropy env st m 50 k1 with
          | none => rw [hge, hgn] at h; exact absurd h (by simp)
          | some p =>
            rw [hge, hgn] at h
            obtain ⟨ne, k2⟩ := p
            simp only [Option.some.injEq] at h
            rw [← h]
            intro s hs
            simp only [List.mem_append, List.mem_cons, List.mem_singleton] at hs
            rcases hs with hs | hs | hs
            · exact htr s hs
            · exact Or.inl ⟨m, hs⟩
            · rcases hs with hs | hs
              · exact Or.inr ⟨m, hs⟩
              · exact absurd hs (by simp)
      · rw [if_neg hm] at h
        simp only [Option.some.injEq] at h
        rw [← h]
        exact htr

/-- The per-variable observed entropy profile depends on the state only
through its factor tree. -/
theorem get_loading_entropy_congr (env : Env) {st st' : EFAState}
    (h : st.results.factor_tree = st'.results.factor_tree) (c : Nat) :
    get_loading_entropy env st c = get_loading_entropy env st' c := by
  simp only [get_loading_entropy, h]

/-- Whether the null-entropy computation succeeds depends only on the
factor tree, not on the position of the permutation stream. -/
theorem get_null_loading_entropy_isSome_congr (env : Env) {st st' : EFAState}
    (h : st.results.factor_tree = st'.results.factor_tree) (c reps k k' : Nat) :
    (get_null_loading_entropy env st c reps k).isSome
      = (get_null_loading_entropy env st' c reps k').isSome := by
  simp only [get_null_loading_entropy, h]
  by_cases hc : c > 1
  · rw [if_pos hc, if_pos hc]
    cases st'.results.factor_tree with
    | none => rfl
    | some tree =>
      simp only []
      cases getAssoc tree c <;> rfl
  · rw [if_neg hc, if_neg hc]

/-- On two states with the same factor tree, the entropy loop succeeds
or fails together (regardless of the permutation counters), and on
success produces the same observed entropies and the same step trace. -/
theorem entropyLoop_congr (env : Env) (st st' : EFAState)
    (htree : st.results.factor_tree = st'.results.factor_tree) :
    ∀ (n k k' : Nat),
      ((entropyLoop env st n k).isSome = (entropyLoop env st' n k').isSome) ∧
      (∀ out out', entropyLoop env st n k = some out →
        entropyLoop env st' n k' = some out' →
        out.1 = out'.1 ∧ out.2.2.2 = out'.2.2.2) := by
  intro n
  induction n with
  | zero =>
    intro k k'
    constructor
    · rfl
    · intro out out' h h'
      simp only [entropyLoop, Option.some.injEq] at h h'
      rw [← h, ← h']
      exact ⟨rfl, rfl⟩
  | succ m ih =>
    intro k k'
    rw [entropyLoop, entropyLoop]
    cases hrec : entropyLoop env st m k with
    | none =>
      have hnone' : entropyLoop env st' m k' = none := by
        have := (ih k k').1
        rw [hrec] at this
        cases hrec' : entropyLoop env st' m k' with
        | none => rfl
        | some _ => rw [hrec'] at this; exact absurd this (by simp)
      rw [hnone']
      exact ⟨rfl, by intro out out' h; exact absurd h (by simp)⟩
    | some prev =>
      have hsome' : ∃ prev', entropyLoop env st' m k' = some prev' := by
        have := (ih k k').1
        rw [hrec] at this
        cases hrec' : entropyLoop env st' m k' with
        | none => rw [hrec'] at this; exact absurd this (by simp)
        | some p => exact ⟨p, rfl⟩
      obtain ⟨prev', hrec'⟩ := hsome'
      have hpp := (ih k k').2 prev prev' hrec hrec'
      rw [hrec']
      obtain ⟨es, nes, k1, tr⟩ := prev
      obtain ⟨es', nes', k1', tr'⟩ := prev'
      simp only []
      have hes : es = es' := hpp.1
      have htr : tr = tr' := hpp.2
      by_cases hm : m > 1
      · rw [if_pos hm, if_pos hm]
        rw [get_loading_entropy_congr env htree m]
        cases hge : get_loading_entropy env st' m with
        | none => exact ⟨rfl, by intro out out' h; exact absurd h (by simp)⟩
        | some e =>
          have hnn := get_null_loading_entropy_isSome_congr env htree m 50 k1 k1'
          cases hgn : get_null_loading_entropy env st m 50 k1 with
          | none =>
            have hgn' : get_null_loading_entropy env st' m 50 k1' = none := by
              rw [hgn] at hnn
              cases hx : get_null_loading_entropy env st' m 50 k1' with
              | none => rfl
              | some _ => rw [hx] at hnn; exact absurd hnn (by simp)
            rw [hgn']
            exact ⟨rfl, by intro out out' h; exact absurd h (by simp)⟩
          | some p =>
            have hgn' : ∃ p', get_null_loading_entropy env st' m 50 k1' = some p' := by
              rw [hgn] at hnn
              cases hx : get_null_loading_entropy env st' m 50 k1' with
              | none => rw [hx] at hnn; exact absurd hnn (by simp)
              | some q => exact ⟨q, rfl⟩
            obtain ⟨p', hgn'⟩ := hgn'
            rw [hgn']
            obtain ⟨ne, k2⟩ := p
            obtain ⟨ne', k2'⟩ := p'
            constructor
            · rfl
            · intro out out' h h'
              simp only [Option.some.injEq] at h h'
              rw [← h, ← h']
              exact ⟨by rw [hes], by rw [htr]⟩
      · rw [if_neg hm, if_neg hm]
        constructor
        · rfl
        · intro out out' h h'
          simp only [Option.some.injEq] at h h'
          rw [← h, ← h']
          exact ⟨hes, by rw [htr]⟩

/-- Characterization of the post-assertion body of `run` on a fresh
session: dimensionality selection runs and records both default
metrics, the whole tree is built, nesting is quantified from it, and
the entropy loop decides the final outcome. -/
theorem EFA_run_post_init (env : Env) (hni : Bool) (k : Nat) :
    EFA_run_post env (EFAState.init hni) false k =
      match entropyLoop env (initMid env hni) (max env.BIC_c env.parallel_c + 5) k with
      | none =>
        { st := initMid env hni
          trace := [Step.adequacy, Step.dimensionality]
            ++ (List.range' 1 (max env.BIC_c env.parallel_c + 5)).map Step.fitFactor
            ++ [Step.nesting]
          rng := k, err := some "KeyError" }
      | some out =>
        { st := { initMid env hni with results :=
                    { (initMid env hni).results with
                      entropies := some out.1, null_entropies := some out.2.1 } }
          trace := [Step.adequacy, Step.dimensionality]
            ++ (List.range' 1 (max env.BIC_c env.parallel_c + 5)).map Step.fitFactor
            ++ [Step.nesting] ++ out.2.2.2
          rng := out.2.2.1, err := none } := by
  have h5 : 0 < max env.BIC_c env.parallel_c + 5 := by omega
  simp [EFA_run_post, get_dimensionality, treeBuildStep, create_factor_tree,
    EFAState.init, getAssoc, setAssoc, initMid, List.max?, h5]
  split <;> (rename_i heq; rw [heq])

/-- Characterization of the post-assertion body of `run` on a session
whose dimensionality is cached (a `c_metric-parallel` entry exists) and
whose tree already spans `max_factors` levels, with `rerun` unset: the
selection and tree steps are skipped, nesting is recomputed from the
cached tree, and the entropy loop decides the final outcome. -/
theorem EFA_run_post_cached (env : Env) (s : EFAState) (k p : Nat)
    (hpar : getAssoc s.results.c_metric "parallel" = some p)
    (hlen : ¬ ((s.results.factor_tree.getD []).length < s.max_factors)) :
    EFA_run_post env s false k =
      match entropyLoop env (cachedMid env s) s.max_factors k with
      | none =>
        { st := cachedMid env s, trace := [Step.adequacy, Step.nesting], rng := k,
          err := some "KeyError" }
      | some out =>
        { st := { cachedMid env s with results :=
                    { (cachedMid env s).results with
                      entropies := some out.1, null_entropies := some out.2.1 } }
          trace := [Step.adequacy, Step.nesting] ++ out.2.2.2
          rng := out.2.2.1, err := none } := by
  simp [EFA_run_post, treeBuildStep, cachedMid, hpar, hlen]
  split <;> (rename_i heq; rw [heq])

/-- Projecting the keys out of a key-tagging map recovers the keys. -/
theorem map_fst_tag {α : Type} (f : Nat → α) (l : List Nat) :
    (l.map (fun c => (c, f c))).map Prod.fst = l := by
  induction l with
  | nil => rfl
  | cons a t ih => simp only [List.map_cons, ih]

/-- A successful `run` presupposes a passing adequacy test. -/
theorem adequate_of_run_ok (env : Env) (st : EFAState) (rerun : Bool) (k : Nat)
    (h : (EFA_run env st rerun k).err = none) : (adequacy_test env).1 = true := by
  by_cases hb : (adequacy_test env).1 = true
  · exact hb
  · have hbf : (adequacy_test env).1 = false := by
      cases hx : (adequacy_test env).1
      · rfl
      · exact absurd hx hb
    rw [EFA_run] at h
    simp [hbf] at h

/-- **C6 counterexample**: on the concrete environment `testEnv` a
completed `run` builds a factor tree covering counts `1..6`
(`max_factors = 6`) but computes entropy profiles only for counts
`2..5`: the top level `c = 6` present in the tree is never profiled,
contradicting "for every `c` in `2..maxC`". -/
theorem C6_counterexample :
    (EFA_run testEnv (EFAState.init false) false 0).err = none ∧
    ((EFA_run testEnv (EFAState.init false) false 0).st.results.factor_tree.getD
      []).map Prod.fst = [1, 2, 3, 4, 5, 6] ∧
    ((EFA_run testEnv (EFAState.init false) false 0).st.results.entropies.getD
      []).map Prod.fst = [2, 3, 4, 5] ∧
    ¬ (6 ∈ ((EFA_run testEnv (EFAState.init false) false 0).st.results.entropies.getD
      []).map Prod.fst) := by
  have h3 : ((EFA_run testEnv (EFAState.init false) false 0).st.results.entropies.getD
      []).map Prod.fst = [2, 3, 4, 5] := by
    simp only [EFA_run_testEnv]; rfl
  refine ⟨?_, ?_, h3, ?_⟩
  · simp only [EFA_run_testEnv]; rfl
  · simp only [EFA_run_testEnv]; rfl
  · rw [h3]; decide

/-- **C6 amended**: after a completed run from a fresh session, the tree
covers `1..max_factors` but the observed and null entropy profiles are
computed exactly for the counts `c` with `1 < c < max_factors`: the top
tree level `c = max_factors` is excluded by the `range(max_factors)`
loop. -/
theorem C6_entropy_coverage (env : Env) (hni : Bool) (k : Nat)
    (h : (EFA_run env (EFAState.init hni) false k).err = none) :
    ((EFA_run env (EFAState.init hni) false k).st.results.factor_tree.getD []).map
        Prod.fst
      = List.range' 1 (EFA_run env (EFAState.init hni) false k).st.max_factors ∧
    ((EFA_run env (EFAState.init hni) false k).st.results.entropies.getD []).map
        Prod.fst
      = (List.range (EFA_run env (EFAState.init hni) false k).st.max_factors).filter
          (fun c => 1 < c) ∧
    ((EFA_run env (EFAState.init hni) false k).st.results.null_entropies.getD []).map
        Prod.fst
      = (List.range (EFA_run env (EFAState.init hni) false k).st.max_factors).filter
          (fun c => 1 < c) ∧
    ¬ ((EFA_run env (EFAState.init hni) false k).st.max_factors ∈
        ((EFA_run env (EFAState.init hni) false k).st.results.entropies.getD []).map
          Prod.fst) := by
  have had := adequate_of_run_ok env (EFAState.init hni) false k h
  rw [EFA_run_eq_post env (EFAState.init hni) false k had] at h ⊢
  rw [EFA_run_post_init] at h ⊢
  cases hE : entropyLoop env (initMid env hni) (max env.BIC_c env.parallel_c + 5) k with
  | none => rw [hE] at h; exact absurd h (by simp)
  | some out =>
    simp only [] at h ⊢
    simp only [initMid]
    have hkeys := entropyLoop_keys env (initMid env hni)
      (max env.BIC_c env.parallel_c + 5) k out hE
    refine ⟨?_, ?_, ?_, ?_⟩
    · simp only [Option.getD_some]
      exact map_fst_tag env.fit _
    · simpa using hkeys.1
    · simpa using hkeys.2
    · intro hmem
      simp only [Option.getD_some, initMid] at hmem
      rw [hkeys.1] at hmem
      have := List.mem_range.mp (List.mem_of_mem_filter hmem)
      omega

/-- **C1 counterexample**: on the concrete environment `testEnv`, after
a first completed `run`, a second `run(rerun=False)` re-invokes
computation steps — the adequacy test, the nesting quantification and
the entropy computations (observed and null) are all executed again —
contradicting "performs no recomputation / does not re-invoke any
computation step". -/
theorem C1_counterexample :
    (EFA_run testEnv (EFAState.init false) false 0).err = none ∧
    Step.nesting ∈ (EFA_run testEnv
      (EFA_run testEnv (EFAState.init false) false 0).st false
      (EFA_run testEnv (EFAState.init false) false 0).rng).trace ∧
    Step.entropyCalc 2 ∈ (EFA_run testEnv
      (EFA_run testEnv (EFAState.init false) false 0).st false
      (EFA_run testEnv (EFAState.init false) false 0).rng).trace ∧
    Step.nullEntropyCalc 2 ∈ (EFA_run testEnv
      (EFA_run testEnv (EFAState.init false) false 0).st false
      (EFA_run testEnv (EFAState.init false) false 0).rng).trace := by
  refine ⟨?_, ?_, ?_, ?_⟩ <;> (simp only [EFA_run_testEnv]; first | rfl | decide)

/-- **C1 amended**: after a first completed `run` on a fresh session, a
second `run(rerun=False)` completes, leaves `factor_tree`,
`lower_nesting` and `entropies` unchanged and re-invokes neither the
dimensionality selection nor any factor extraction; but it does
unconditionally re-invoke the nesting quantification (and the entropy
computations), and the regenerated `null_entropies` come from fresh
permutation draws (the permutation counter has advanced), so they are
not guaranteed byte-identical. -/
theorem C1_second_run (env : Env) (hni : Bool) (k : Nat)
    (h : (EFA_run env (EFAState.init hni) false k).err = none) :
    (EFA_run env (EFA_run env (EFAState.init hni) false k).st false
        (EFA_run env (EFAState.init hni) false k).rng).err = none ∧
    (EFA_run env (EFA_run env (EFAState.init hni) false k).st false
        (EFA_run env (EFAState.init hni) false k).rng).st.results.factor_tree
      = (EFA_run env (EFAState.init hni) false k).st.results.factor_tree ∧
    (EFA_run env (EFA_run env (EFAState.init hni) false k).st false
        (EFA_run env (EFAState.init hni) false k).rng).st.results.lower_nesting
      = (EFA_run env (EFAState.init hni) false k).st.results.lower_nesting ∧
    (EFA_run env (EFA_run env (EFAState.init hni) false k).st false
        (EFA_run env (EFAState.init hni) false k).rng).st.results.entropies
      = (EFA_run env (EFAState.init hni) false k).st.results.entropies ∧
    Step.dimensionality ∉ (EFA_run env (EFA_run env (EFAState.init hni) false k).st
        false (EFA_run env (EFAState.init hni) false k).rng).trace ∧
    (∀ c, Step.fitFactor c ∉ (EFA_run env (EFA_run env (EFAState.init hni) false k).st
        false (EFA_run env (EFAState.init hni) false k).rng).trace) ∧
    Step.nesting ∈ (EFA_run env (EFA_run env (EFAState.init hni) false k).st
        false (EFA_run env (EFAState.init hni) false k).rng).trace := by
  have had := adequate_of_run_ok env (EFAState.init hni) false k h
  have hrw : ∀ (st : EFAState) (r : Bool) (kk : Nat),
      EFA_run env st r kk = EFA_run_post env st r kk :=
    fun st r kk => EFA_run_eq_post env st r kk had
  rw [hrw, EFA_run_post_init] at h
  cases hE : entropyLoop env (initMid env hni) (max env.BIC_c env.parallel_c + 5) k with
  | none => rw [hE] at h; exact absurd h (by simp)
  | some out =>
    rw [hE] at h
    have e1 : EFA_run env (EFAState.init hni) false k =
        { st := { initMid env hni with results :=
                    { (initMid env hni).results with
                      entropies := some out.1, null_entropies := some out.2.1 } }
          trace := [Step.adequacy, Step.dimensionality]
            ++ (List.range' 1 (max env.BIC_c env.parallel_c + 5)).map Step.fitFactor
            ++ [Step.nesting] ++ out.2.2.2
          rng := out.2.2.1, err := none } := by
      rw [hrw, EFA_run_post_init, hE]
    rw [e1]
    set S : EFAState := { initMid env hni with results :=
        { (initMid env hni).results with
          entropies := some out.1, null_entropies := some out.2.1 } } with hS
    have hpar : getAssoc S.results.c_metric "parallel" = some env.parallel_c := by
      rw [hS]; simp [initMid, getAssoc]
    have hlen : ¬ ((S.results.factor_tree.getD []).length < S.max_factors) := by
      rw [hS]; simp [initMid]
    have hmf : S.max_factors = max env.BIC_c env.parallel_c + 5 := by rw [hS]; rfl
    have e2 := EFA_run_post_cached env S out.2.2.1 env.parallel_c hpar hlen
    rw [← hrw, hmf] at e2
    have htree : (initMid env hni).results.factor_tree
        = (cachedMid env S).results.factor_tree := by
      rw [hS]; rfl
    have hcong := entropyLoop_congr env (initMid env hni) (cachedMid env S) htree
      (max env.BIC_c env.parallel_c + 5) k out.2.2.1
    cases hE2 : entropyLoop env (cachedMid env S)
        (max env.BIC_c env.parallel_c + 5) out.2.2.1 with
    | none =>
      have hc := hcong.1
      rw [hE, hE2] at hc
      exact absurd hc (by simp)
    | some out' =>
      have hoo := hcong.2 out out' hE hE2
      have hshape := entropyLoop_trace_shape env (cachedMid env S)
        (max env.BIC_c env.parallel_c + 5) out.2.2.1 out' hE2
      rw [e2, hE2]
      refine ⟨rfl, rfl, rfl, ?_, ?_, ?_, ?_⟩
      · exact congrArg some hoo.1.symm
      · intro hmem
        simp only [List.mem_append, List.mem_cons, List.mem_singleton] at hmem
        rcases hmem with (hmem | hmem) | hmem
        · exact absurd hmem (by simp)
        · exact absurd hmem (by simp)
        · rcases hshape Step.dimensionality hmem with ⟨c, hc⟩ | ⟨c, hc⟩ <;>
            exact absurd hc (by simp)
      · intro c hmem
        simp only [List.mem_append, List.mem_cons, List.mem_singleton] at hmem
        rcases hmem with (hmem | hmem) | hmem
        · exact absurd hmem (by simp)
        · exact absurd hmem (by simp)
        · rcases hshape (Step.fitFactor c) hmem with ⟨c2, hc⟩ | ⟨c2, hc⟩ <;>
            exact absurd hc (by simp)
      · simp

/-- Witness for C1's amended statement at `testEnv`. -/
theorem C1_second_run_witness :
    (EFA_run testEnv (EFA_run testEnv (EFAState.init false) false 0).st false
        (EFA_run testEnv (EFAState.init false) false 0).rng).st.results.entropies
      = (EFA_run testEnv (EFAState.init false) false 0).st.results.entropies :=
  (C1_second_run testEnv false 0 (by simp only [EFA_run_testEnv]; rfl)).2.2.2.1

/-- Witness for C6's amended statement at `testEnv`: the top tree level
is absent from the entropy profiles. -/
theorem C6_entropy_coverage_witness :
    ¬ ((EFA_run testEnv (EFAState.init false) false 0).st.max_factors ∈
        ((EFA_run testEnv (EFAState.init false) false 0).st.results.entropies.getD
          []).map Prod.fst) :=
  (C6_entropy_coverage testEnv false 0 (by simp only [EFA_run_testEnv]; rfl)).2.2.2

/-- **C4**: for every dataset whose adequacy check fails (KMO not above
0.6 or Bartlett p not below 0.05), `EFA_Analysis.run` raises before any
model-order selection or tree construction — the only step taken is the
adequacy test itself — and afterwards the session's results contain no
factor tree. -/
theorem C4_adequacy_gate (env : Env) (hni : Bool) (k : Nat)
    (h : ¬ (env.KMO > 6/10 ∧ env.Barlett_p < 1/20)) :
    (EFA_run env (EFAState.init hni) false k).err ≠ none ∧
    (EFA_run env (EFAState.init hni) false k).st.results.factor_tree = none ∧
    (EFA_run env (EFAState.init hni) false k).trace = [Step.adequacy] := by
  have hb : (adequacy_test env).1 = false := by
    by_cases h1 : env.KMO > 6/10
    · have h2 : ¬ env.Barlett_p < 1/20 := fun h2 => h ⟨h1, h2⟩
      have h2' : (20 : ℚ)⁻¹ ≤ env.Barlett_p := by
        rw [← one_div]; exact not_lt.mp h2
      simp [adequacy_test, h1, h2']
    · simp [adequacy_test, h1]
  refine ⟨?_, ?_, ?_⟩ <;> simp [EFA_run, hb, EFAState.init]

/-- Witness for C4 at the concrete inadequate environment `badEnv`
(KMO = 0.5). -/
theorem C4_adequacy_gate_witness :
    (EFA_run badEnv (EFAState.init false) false 0).err ≠ none ∧
    (EFA_run badEnv (EFAState.init false) false 0).st.results.factor_tree = none :=
  ⟨(C4_adequacy_gate badEnv false 0 (by norm_num [badEnv, testEnv])).1,
   (C4_adequacy_gate badEnv false 0 (by norm_num [badEnv, testEnv])).2.1⟩

/-- **C9**: when the cross-validated criterion is requested on a fresh
session without the non-imputed dataset variant, `get_dimensionality`
does not raise, records no `c_metric-CV` entry, reports the failure, and
still records the results of all other requested criteria. -/
theorem C9_cv_criterion_skipped (env : Env) (st : EFAState)
    (hni : st.hasNoImpute = false)
    (hc : st.results.c_metric = []) (hs : st.results.cscores = []) :
    (get_dimensionality env ["BIC", "parallel", "CV"] st).err = none ∧
    (get_dimensionality env ["BIC", "parallel", "CV"] st).st.results.c_metric
      = [("BIC", env.BIC_c), ("parallel", env.parallel_c)] ∧
    getAssoc (get_dimensionality env ["BIC", "parallel", "CV"] st).st.results.c_metric
      "CV" = none ∧
    getAssoc (get_dimensionality env ["BIC", "parallel", "CV"] st).st.results.cscores
      "BIC" = some env.BICs ∧
    Step.reportCVFailure ∈ (get_dimensionality env ["BIC", "parallel", "CV"] st).trace := by
  refine ⟨?_, ?_, ?_, ?_, ?_⟩ <;>
    simp [get_dimensionality, hni, hc, hs, setAssoc, getAssoc, List.max?]

/-- Witness for C9 at `testEnv` on a fresh session. -/
theorem C9_cv_criterion_skipped_witness :
    getAssoc (get_dimensionality testEnv ["BIC", "parallel", "CV"]
      (EFAState.init false)).st.results.c_metric "CV" = none :=
  (C9_cv_criterion_skipped testEnv (EFAState.init false) rfl rfl rfl).2.2.1

/-- The null-entropy loop produces `nvars` values per repetition. -/
theorem nullEntLoop_length (env : Env) (maxE : ℚ) :
    ∀ (reps : Nat) (M : LoadMatrix) (k : Nat),
      (nullEntLoop env maxE reps M k).1.length = reps * M.nvars := by
  intro reps
  induction reps with
  | zero => intro M k; simp [nullEntLoop]
  | succ n ih =>
    intro M k
    simp [nullEntLoop, shuffleCols, ih]
    ring

/-- **C7**: for every factor count `c > 1` and repetition count `reps`,
the null-entropy computation returns a flat sample whose length is
`reps` times the number of variables of that level's loading matrix. -/
theorem C7_null_sample_length (env : Env) (st : EFAState)
    (tree : List (Nat × LoadMatrix)) (M : LoadMatrix) (c reps k : Nat)
    (hc : 1 < c) (ht : st.results.factor_tree = some tree)
    (hM : getAssoc tree c = some M) :
    (get_null_loading_entropy env st c reps k).map (fun p => p.1.length)
      = some (reps * M.nvars) := by
  simp [get_null_loading_entropy, hc, ht, hM, nullEntLoop_length]

/-- A session state holding only a two-variable loading matrix at count
2, for evaluating the entropy routines on their own. -/
def c7State : EFAState :=
  { EFAState.init false with
    results := { (EFAState.init false).results with
                 factor_tree := some [(2, testEnv.fit 2)] } }

/-- Witness for C7: at `testEnv`'s two-variable matrix, 50 repetitions
give a null sample of length `50 × 2 = 100`. -/
theorem C7_null_sample_length_witness :
    (get_null_loading_entropy testEnv c7State 2 50 0).map (fun p => p.1.length)
      = some 100 := by
  simpa using C7_null_sample_length testEnv c7State [(2, testEnv.fit 2)]
    (testEnv.fit 2) 2 50 0 (by norm_num) rfl rfl

/-- Dictionary lookup on a cons cell. -/
theorem getAssoc_cons {α β : Type} [DecidableEq α] (k : α) (v : β)
    (l : List (α × β)) (c : α) :
    getAssoc ((k, v) :: l) c = if k = c then some v else getAssoc l c := by
  by_cases h : k = c <;> simp [getAssoc, List.find?_cons, h]

/-- Looking up a count in a tree built over `range' s n` returns the
extraction output for that count. -/
theorem getAssoc_range'_map {α : Type} (f : Nat → α) :
    ∀ (s n c : Nat), c ∈ List.range' s n →
      getAssoc ((List.range' s n).map (fun c => (c, f c))) c = some (f c) := by
  intro s n
  induction n generalizing s with
  | zero => intro c hc; simp at hc
  | succ m ih =>
    intro c hc
    rw [List.range'_succ, List.map_cons, getAssoc_cons]
    by_cases hcs : s = c
    · subst hcs; simp
    · rw [if_neg hcs]
      rw [List.range'_succ] at hc
      rcases List.mem_cons.mp hc with h | h
      · exact absurd h.symm hcs
      · exact ih (s + 1) c h

/-- **C2 counterexample**: on the concrete environment `testEnv`, build
the tree for range `[1,5]`, then extend to `[1,8]` without the
force-rerun flag: the second build re-extracts count 1 (and every other
count of `[1,5]`), so previously computed counts are **not** reused and
the computed counts are not limited to `6..8`. -/
theorem C2_counterexample :
    Step.fitFactor 1 ∈
      (treeBuildStep testEnv
        { (treeBuildStep testEnv { EFAState.init false with max_factors := 5 } false).1
          with max_factors := 8 } false).2 ∧
    (treeBuildStep testEnv
        { (treeBuildStep testEnv { EFAState.init false with max_factors := 5 } false).1
          with max_factors := 8 } false).2
      = (List.range' 1 8).map Step.fitFactor := by
  constructor <;> decide

/-- **C2 amended**: extending a built tree for `[1, m1]` to a larger
range `[1, m2]` triggers a **full rebuild**: every count `1..m2` is
re-extracted (the step trace is one extraction per count of the whole
range), and the entries for `1..m1` of the new tree are equal in value
to the first build's entries only because extraction is deterministic —
they are fresh recomputations, not reused results. -/
theorem C2_full_rebuild_on_extension (env : Env) (m1 m2 : Nat)
    (h1 : 0 < m1) (h2 : m1 < m2) :
    (treeBuildStep env
        { (treeBuildStep env { EFAState.init false with max_factors := m1 } false).1
          with max_factors := m2 } false).2
      = (List.range' 1 m2).map Step.fitFactor ∧
    (∀ c ∈ List.range' 1 m1,
      getAssoc ((treeBuildStep env
          { (treeBuildStep env { EFAState.init false with max_factors := m1 } false).1
            with max_factors := m2 } false).1.results.factor_tree.getD []) c
        = some (env.fit c) ∧
      getAssoc ((treeBuildStep env { EFAState.init false with max_factors := m1 }
          false).1.results.factor_tree.getD []) c = some (env.fit c)) := by
  have e1 : (treeBuildStep env { EFAState.init false with max_factors := m1 } false).1
      = { EFAState.init false with
          max_factors := m1
          results := { (EFAState.init false).results with
            factor_tree := some ((List.range' 1 m1).map (fun c => (c, env.fit c)))
            factor_tree_Rout := some ((List.range' 1 m1).map (fun c => (c, env.fitRout c))) } } := by
    simp [treeBuildStep, EFAState.init, create_factor_tree, h1]
  have hlen : ((List.range' 1 m1).map (fun c => (c, env.fit c))).length < m2 := by
    simpa using h2
  constructor
  · rw [e1]
    simp [treeBuildStep, create_factor_tree, h2]
  · intro c hc
    have hc2 : c ∈ List.range' 1 m2 := by
      rcases List.mem_range'_1.mp hc with ⟨ha, hb⟩
      exact List.mem_range'_1.mpr ⟨ha, lt_trans hb (by omega)⟩
    rw [e1]
    constructor
    · simp only [treeBuildStep, create_factor_tree, h2]
      simp [h2]
      simpa using getAssoc_range'_map env.fit 1 m2 c hc2
    · simpa using getAssoc_range'_map env.fit 1 m1 c hc

/-- Witness for C2's amended statement at the ranges of the claim,
`[1,5]` then `[1,8]`, on `testEnv`. -/
theorem C2_full_rebuild_on_extension_witness :
    (treeBuildStep testEnv
        { (treeBuildStep testEnv { EFAState.init false with max_factors := 5 } false).1
          with max_factors := 8 } false).2
      = (List.range' 1 8).map Step.fitFactor :=
  (C2_full_rebuild_on_extension testEnv 5 8 (by norm_num) (by norm_num)).1

/-- An `HCA_Analysis` whose data-clustering result is already cached
(stored under the data key, with the opaque value 42). -/
def hcaCached : HCAState :=
  { results := [("clustering_metric-distcorr_input-data", 42)]
    metric_name := "distcorr" }

/-- **C3**: evaluation of `HCA_Analysis.run` at the failing inputs.  The
cache condition in the source reads `key in results or rerun` instead of
`key not in results or rerun`, so (a) when the data-clustering result
**is** cached and no rerun is requested, `run` recomputes it anyway
(`clusterData` is invoked and the stored value is overwritten by a fresh
engine output), and (b) when it is **not** cached and no rerun is
requested, `run` never computes it at all. -/
theorem C3_inverted_cache_condition :
    HCA_run testEnv (EFAState.init false) hcaCached false
      = .ok ({ results := [("clustering_metric-distcorr_input-data", testEnv.hcData)]
               metric_name := "distcorr" }, [Step.clusterData]) ∧
    HCA_run testEnv (EFAState.init false) (HCAState.init "distcorr") false
      = .ok (HCAState.init "distcorr", []) := by
  constructor <;> rfl

/-- A two-row, one-column dataset used for the bootstrap claims. -/
def bootData : List (List ℚ) := [[1], [2]]

/-- **C8 counterexample**: with the 16-bit identifier stream happening
to repeat (a possible outcome of `random.getrandbits(16)`), two
successive bootstrap repetitions persist their records under the **same**
identifier-derived filename — identifiers across repetitions are not
distinct, and the second record overwrites the first. -/
theorem C8_counterexample :
    outcomeFilename (run_bootstrap testEnv bootData "distcorr" false true ⟨0, 0, 0⟩)
      = some "bootstrap_ID-5.pkl" ∧
    outcomeFilename (run_bootstrap testEnv bootData "distcorr" false true
        (getOutRNG (run_bootstrap testEnv bootData "distcorr" false true ⟨0, 0, 0⟩)))
      = some "bootstrap_ID-5.pkl" := by
  constructor <;> · simp only [run_bootstrap, EFA_run_testEnv]; rfl

/-- **C8 amended**: each bootstrap repetition resamples the dataset with
replacement to the original row count and runs a fresh factor analysis
on the resample; when persisted, the record is written under
`'bootstrap_ID-<id>.pkl'` where `<id>` is one fresh 16-bit draw, and the
identifier appears only in the filename (the persisted payload carries
the resample and the analyses but no identifier) — distinctness of
identifiers across repetitions is not guaranteed. -/
theorem C8_bootstrap_repetition (env : Env) (data : List (List ℚ)) (m : String)
    (r : RNG)
    (h : (EFA_run env (EFAState.init false) false
            (gen_resample_data env data r).2.perm).err = none) :
    (gen_resample_data env data r).1.length = data.length ∧
    run_bootstrap env data m false true r = .ok (.saved
        ("bootstrap_ID-" ++ toString (env.idBits (gen_resample_data env data r).2.id)
          ++ ".pkl")
        { data := (gen_resample_data env data r).1
          EFA := (EFA_run env (EFAState.init false) false
                    (gen_resample_data env data r).2.perm).st
          HCA := none },
      { (gen_resample_data env data r).2 with
          perm := (EFA_run env (EFAState.init false) false
                    (gen_resample_data env data r).2.perm).rng
          id := (gen_resample_data env data r).2.id + 1 }) := by
  constructor
  · simp [gen_resample_data]
  · simp only [run_bootstrap]
    rw [h]
    rfl

/-- Witness for C8's amended statement at `testEnv` and the concrete
dataset `bootData`. -/
theorem C8_bootstrap_repetition_witness :
    (gen_resample_data testEnv bootData ⟨0, 0, 0⟩).1.length = bootData.length :=
  (C8_bootstrap_repetition testEnv bootData "distcorr" ⟨0, 0, 0⟩
    (by simp only [EFA_run_testEnv]; rfl)).1

/-- **C10**: reducing a bootstrap run that was created with clustering
disabled (`run_HCA=False`) raises a key-lookup error — `reduce_boot`
unconditionally reads `boot_run['HCA']`, which such bundles lack. -/
theorem C10_reduce_boot_requires_HCA (env : Env) (data : List (List ℚ))
    (m : String) (r : RNG) (b : BootBundle) (r' : RNG)
    (h : run_bootstrap env data m false false r = .ok (.bundle b, r')) :
    reduce_boot b = .error "KeyError: HCA" := by
  simp only [run_bootstrap] at h
  rcases he : (EFA_run env (EFAState.init false) false
      (gen_resample_data env data r).2.perm).err with _ | e
  · rw [he] at h
    simp only [Bool.false_eq_true, if_false, Except.ok.injEq, Prod.mk.injEq,
      BootOutcome.bundle.injEq] at h
    obtain ⟨h1, -⟩ := h
    have hb : b.HCA = none := by
      rw [← h1]
    simp [reduce_boot, hb]
  · rw [he] at h
    exact absurd h (by simp)

/-- Cells whose index is touched by no entry of the list are left
unchanged by the `get_nesting_matrix` fold. -/
theorem nesting_foldl_preserve (thr : ℚ) :
    ∀ (l : List ((Nat × Nat) × List ℚ)) (m : (Nat → Nat → ℚ) × (Nat → Nat → ℚ))
      (i j : Nat),
      (∀ kv ∈ l, ¬(kv.1.2 - 1 = i ∧ kv.1.1 - 1 = j)) →
      (l.foldl (nestingStep thr) m).1 i j = m.1 i j ∧
      (l.foldl (nestingStep thr) m).2 i j = m.2 i j := by
  intro l
  induction l with
  | nil => intro m i j _; exact ⟨rfl, rfl⟩
  | cons kv rest ih =>
    intro m i j hne
    have h1 := hne kv (List.mem_cons_self _ _)
    have hrest : ∀ kv' ∈ rest, ¬(kv'.1.2 - 1 = i ∧ kv'.1.1 - 1 = j) :=
      fun kv' hm => hne kv' (List.mem_cons_of_mem _ hm)
    have hi := ih (nestingStep thr m kv) i j hrest
    rw [List.foldl_cons]
    rw [hi.1, hi.2]
    have hcond : ¬(i = kv.1.2 - 1 ∧ j = kv.1.1 - 1) := by
      intro hc; exact h1 ⟨hc.1.symm, hc.2.symm⟩
    constructor <;> simp [nestingStep, matUpdate, hcond]

/-- The cell at `(high-1, low-1)` of the matrices built by
`get_nesting_matrix` holds the two aggregates of the `(low, high)` entry
of `lower_nesting`, provided no two entries share a cell. -/
theorem nesting_foldl_get (thr : ℚ) :
    ∀ (l : List ((Nat × Nat) × List ℚ)) (m : (Nat → Nat → ℚ) × (Nat → Nat → ℚ))
      (low high : Nat) (scores : List ℚ),
      ((low, high), scores) ∈ l →
      (l.map (fun kv => (kv.1.2 - 1, kv.1.1 - 1))).Nodup →
      (l.foldl (nestingStep thr) m).1 (high - 1) (low - 1)
          = explainedScoreOf thr scores ∧
      (l.foldl (nestingStep thr) m).2 (high - 1) (low - 1)
          = sumExplainedOf thr low scores := by
  intro l
  induction l with
  | nil => intro m low high scores hm _; simp at hm
  | cons kv rest ih =>
    intro m low high scores hm hnd
    rw [List.map_cons, List.nodup_cons] at hnd
    obtain ⟨hhead, hrest⟩ := hnd
    rcases List.mem_cons.mp hm with he | hm'
    · have hne : ∀ kv' ∈ rest, ¬(kv'.1.2 - 1 = high - 1 ∧ kv'.1.1 - 1 = low - 1) := by
        intro kv' hmem hc
        apply hhead
        rw [← he]
        exact List.mem_map.mpr ⟨kv', hmem, by rw [hc.1, hc.2]⟩
      rw [List.foldl_cons]
      have hp := nesting_foldl_preserve thr rest (nestingStep thr m kv)
        (high - 1) (low - 1) hne
      rw [hp.1, hp.2, ← he]
      constructor <;> simp [nestingStep, matUpdate]
    · rw [List.foldl_cons]
      exact ih (nestingStep thr m kv) low high scores hm' hrest

/-- The mean-over-threshold aggregate lies in `[0, 1]` whenever the
scores are bounded by 1 and the threshold is nonnegative. -/
theorem explainedScoreOf_bounds (thr : ℚ) (scores : List ℚ)
    (hthr : 0 ≤ thr) (hb : ∀ s ∈ scores, s ≤ 1) :
    0 ≤ explainedScoreOf thr scores ∧ explainedScoreOf thr scores ≤ 1 := by
  unfold explainedScoreOf
  set l := scores.filter (fun s => thr < s) with hl
  by_cases hemp : l.length = 0
  · simp [hemp]
  · have hpos : (0 : ℚ) < l.length := by
      have := Nat.pos_of_ne_zero hemp
      exact_mod_cast this
    have hsum0 : 0 ≤ l.sum := by
      apply List.sum_nonneg
      intro x hx
      have := List.of_mem_filter (by simpa [hl] using hx)
      exact le_of_lt (lt_of_le_of_lt hthr (by simpa using this))
    have hsum1 : l.sum ≤ (l.length : ℚ) := by
      have h := List.sum_le_card_nsmul l 1 (fun x hx =>
        hb x (List.mem_of_mem_filter (by simpa [hl] using hx)))
      simpa [nsmul_eq_mul] using h
    rw [if_neg hemp]
    constructor
    · exact div_nonneg hsum0 (le_of_lt hpos)
    · rw [div_le_one hpos]
      exact hsum1

/-- **C5**: for a pair `(low, high)` present in `lower_nesting`, the
`explained_score` stored by `get_nesting_matrix` at row `high-1`, column
`low-1` is the mean of the per-low-factor scores exceeding the 0.5
threshold (0 when none does, via the NaN conversion), and lies in
`[0,1]` when the per-factor scores are bounded by 1; the stored
`sum_explained` is the count of adequately explained factors divided by
`low`. -/
theorem C5_nesting_aggregates (nesting : List ((Nat × Nat) × List ℚ))
    (low high : Nat) (scores : List ℚ)
    (hmem : ((low, high), scores) ∈ nesting)
    (hnd : (nesting.map (fun kv => (kv.1.2 - 1, kv.1.1 - 1))).Nodup)
    (hb : ∀ s ∈ scores, s ≤ 1) :
    (get_nesting_matrix nesting (1/2)).1 (high - 1) (low - 1)
        = explainedScoreOf (1/2) scores ∧
    (scores.filter (fun s => (1/2 : ℚ) < s) ≠ [] →
      explainedScoreOf (1/2) scores
        = (scores.filter (fun s => (1/2 : ℚ) < s)).sum
            / ((scores.filter (fun s => (1/2 : ℚ) < s)).length : ℚ)) ∧
    (scores.filter (fun s => (1/2 : ℚ) < s) = [] →
      explainedScoreOf (1/2) scores = 0) ∧
    0 ≤ (get_nesting_matrix nesting (1/2)).1 (high - 1) (low - 1) ∧
    (get_nesting_matrix nesting (1/2)).1 (high - 1) (low - 1) ≤ 1 ∧
    (get_nesting_matrix nesting (1/2)).2 (high - 1) (low - 1)
        = ((scores.filter (fun s => (1/2 : ℚ) < s)).length : ℚ) / (low : ℚ) := by
  have hg := nesting_foldl_get (1/2) nesting (fun _ _ => -1, fun _ _ => 0)
    low high scores hmem hnd
  have hbd := explainedScoreOf_bounds (1/2) scores (by norm_num) hb
  refine ⟨hg.1, ?_, ?_, ?_, ?_, ?_⟩
  · intro hne
    have hlen : (scores.filter (fun s => decide ((1/2 : ℚ) < s))).length ≠ 0 := by
      simpa [List.length_eq_zero] using hne
    unfold explainedScoreOf
    rw [if_neg hlen]
  · intro hemp
    have hlen : (scores.filter (fun s => decide ((1/2 : ℚ) < s))).length = 0 := by
      rw [hemp]; rfl
    unfold explainedScoreOf
    rw [if_pos hlen]
  · rw [show (get_nesting_matrix nesting (1/2)).1 = (nesting.foldl (nestingStep (1/2))
      (fun _ _ => -1, fun _ _ => 0)).1 from rfl, hg.1]
    exact hbd.1
  · rw [show (get_nesting_matrix nesting (1/2)).1 = (nesting.foldl (nestingStep (1/2))
      (fun _ _ => -1, fun _ _ => 0)).1 from rfl, hg.1]
    exact hbd.2
  · rw [show (get_nesting_matrix nesting (1/2)).2 = (nesting.foldl (nestingStep (1/2))
      (fun _ _ => -1, fun _ _ => 0)).2 from rfl, hg.2]
    rfl

/-- Witness for C5 at the concrete nesting collection
`[((2,3), [3/4, 1/4])]`: the stored explained score is `3/4 ∈ [0,1]` and
the stored `sum_explained` is `1/2`. -/
theorem C5_nesting_aggregates_witness :
    0 ≤ (get_nesting_matrix [((2, 3), [3/4, 1/4])] (1/2)).1 2 1 ∧
    (get_nesting_matrix [((2, 3), [3/4, 1/4])] (1/2)).1 2 1 ≤ 1 := by
  have h := C5_nesting_aggregates [((2, 3), [3/4, 1/4])] 2 3 [3/4, 1/4]
    (List.mem_singleton.mpr rfl) (by simp)
    (by intro s hs; rcases List.mem_cons.mp hs with h | h
        · rw [h]; norm_num
        · rw [List.mem_singleton.mp h]; norm_num)
  exact ⟨h.2.2.2.1, h.2.2.2.2.1⟩

/-- Witness for C10 at `testEnv` and `bootData`: the bundle returned by
a clustering-free repetition cannot be reduced. -/
theorem C10_reduce_boot_requires_HCA_witness :
    reduce_boot (getBundle (run_bootstrap testEnv bootData "distcorr" false false
      ⟨0, 0, 0⟩)) = .error "KeyError: HCA" :=
  C10_reduce_boot_requires_HCA testEnv bootData "distcorr" ⟨0, 0, 0⟩
    (getBundle (run_bootstrap testEnv bootData "distcorr" false false ⟨0, 0, 0⟩))
    (getOutRNG (run_bootstrap testEnv bootData "distcorr" false false ⟨0, 0, 0⟩))
    (by simp only [run_bootstrap, EFA_run_testEnv, getBundle, getOutRNG]; rfl)

end SRO
